import Mathlib

/-!
Verification development for the Jaya_FE reminder pipeline.

Shallow embedding of the reminder scheduling subsystem:
* `parseReminderTime` (src/utils/reminderUtils, `parseReminderTime`)
* the local reminder store (src/services/storage, `StorageService`)
* the scheduler (src/services/reminderService, `ReminderService`)
* the intent router (src/screens/ChatScreen, `sendMessage`)
* the Firebase token lifecycle (src/services/firebaseNotification)

Time is modelled as seconds since the epoch (`Nat`); JavaScript `Date`
arithmetic (`setMinutes`, `setHours`, `setDate`) normalizes overflow, which
the plain second arithmetic below reproduces.  Classification confidences
(IEEE doubles in the source) are modelled as rationals.
-/

namespace JayaFE

/-! ### JavaScript string primitives -/

/-- `leadsWith pat l` is true when `pat` occurs at the head of `l`
(the character-list form of a string-prefix test, used to build the
`String.prototype.includes` model below). -/
def leadsWith : List Char → List Char → Bool
  | [], _ => true
  | _ :: _, [] => false
  | a :: as, b :: bs => a = b && leadsWith as bs

/-- `occursIn pat l` is true when `pat` occurs contiguously anywhere in `l`. -/
def occursIn (pat : List Char) : List Char → Bool
  | [] => pat.isEmpty
  | c :: rest => leadsWith pat (c :: rest) || occursIn pat rest

/-- Model of JavaScript `s.includes(sub)` (substring containment). -/
def jsIncludes (s sub : String) : Bool :=
  occursIn sub.toList s.toList

/-- Numeric value of a decimal digit character. -/
def dv (c : Char) : Nat := c.toNat - 48

/-- The first maximal run of decimal digits in a character list, if any:
model of the JavaScript regular-expression match `/\d+/`. -/
def firstDigitRun : List Char → Option (List Char)
  | [] => none
  | c :: rest =>
    if c.isDigit then some (c :: rest.takeWhile Char.isDigit)
    else firstDigitRun rest

/-- Decimal value of a digit-character list (most significant first):
model of JavaScript `parseInt` applied to a `/\d+/` match. -/
def digitsToNat (ds : List Char) : Nat :=
  ds.foldl (fun n c => 10 * n + dv c) 0

/-- Model of `parseInt(timeString.match(/\d+/)?.[0] || '0')` from
`parseReminderTime`: the first digit run's value, defaulting to `0`. -/
def matchIntOrZero (s : String) : Nat :=
  match firstDigitRun s.toList with
  | some ds => digitsToNat ds
  | none => 0

/-! ### Model of the `new Date(string)` constructor

ECMAScript only guarantees parsing of ISO 8601 date-time strings; all other
formats are engine-specific.  The builtin is modelled as accepting exactly
`YYYY-MM-DDTHH:MM:SS` with an optional trailing `Z`, for years from 1970 on,
and rejecting everything else. -/

/-- Leap-year test (proleptic Gregorian). -/
def isLeap (y : Nat) : Bool := (y % 4 = 0 && y % 100 ≠ 0) || y % 400 = 0

/-- Days from 1970-01-01 to the first day of month `m` (1-based) of year `y`. -/
def cumMonthDays (y m : Nat) : Nat :=
  let base := [0, 31, 59, 90, 120, 151, 181, 212, 243, 273, 304, 334].getD (m - 1) 0
  if isLeap y && m > 2 then base + 1 else base

/-- Number of leap years in the interval `[1970, y)`. -/
def leapsBefore (y : Nat) : Nat :=
  ((y - 1) / 4 - 1969 / 4) - ((y - 1) / 100 - 1969 / 100) + ((y - 1) / 400 - 1969 / 400)

/-- Epoch seconds of the civil instant `y-mo-d h:mi:s` (UTC model). -/
def epochOfCivil (y mo d h mi s : Nat) : Nat :=
  ((365 * (y - 1970) + leapsBefore y + cumMonthDays y mo + (d - 1)) * 86400)
    + h * 3600 + mi * 60 + s

/-- Parse the 19-character core `YYYY-MM-DDTHH:MM:SS` of an ISO string. -/
def isoCore (l : List Char) : Option Nat :=
  match l with
  | [y1, y2, y3, y4, c1, mo1, mo2, c2, d1, d2, c3, h1, h2, c4, mi1, mi2, c5, s1, s2] =>
    if y1.isDigit && y2.isDigit && y3.isDigit && y4.isDigit
        && c1 = '-' && mo1.isDigit && mo2.isDigit && c2 = '-'
        && d1.isDigit && d2.isDigit && c3 = 'T'
        && h1.isDigit && h2.isDigit && c4 = ':'
        && mi1.isDigit && mi2.isDigit && c5 = ':'
        && s1.isDigit && s2.isDigit then
      let y := 1000 * dv y1 + 100 * dv y2 + 10 * dv y3 + dv y4
      let mo := 10 * dv mo1 + dv mo2
      let d := 10 * dv d1 + dv d2
      let h := 10 * dv h1 + dv h2
      let mi := 10 * dv mi1 + dv mi2
      let s := 10 * dv s1 + dv s2
      if 1970 ≤ y && 1 ≤ mo && mo ≤ 12 && 1 ≤ d && d ≤ 31
          && h ≤ 23 && mi ≤ 59 && s ≤ 59 then
        some (epochOfCivil y mo d h mi s)
      else none
    else none
  | _ => none

/-- Model of `new Date(timeString)` followed by the `isNaN(getTime())`
validity check in `parseReminderTime`. -/
def jsDateParse (s : String) : Option Nat :=
  match s.toList.getLast? with
  | some 'Z' => isoCore s.toList.dropLast
  | _ => isoCore s.toList

/-! ### The clock-time regular expression

Model of `/(\d{1,2}):(\d{2})\s*(AM|PM)?/i` with JavaScript `match`
semantics: leftmost match wins; the hour field is greedy (two digits when
followed by `:`, otherwise one). -/

/-- A successful match of the clock-time pattern: hour and minute values and
the optional meridiem (`some true` = PM, `some false` = AM). -/
structure ClockMatch where
  hours : Nat
  minutes : Nat
  ampm : Option Bool
deriving DecidableEq, Repr

/-- The optional case-insensitive `(AM|PM)?` group, tried at the point
reached after the mandatory part of the pattern. -/
def parseAmPm : List Char → Option Bool
  | c1 :: c2 :: _ =>
    if (c1 = 'A' || c1 = 'a') && (c2 = 'M' || c2 = 'm') then some false
    else if (c1 = 'P' || c1 = 'p') && (c2 = 'M' || c2 = 'm') then some true
    else none
  | _ => none

/-- Match `:(\d{2})\s*(AM|PM)?` given the already-parsed hour value. -/
def matchClockTail (hrs : Nat) : List Char → Option ClockMatch
  | m1 :: m2 :: rest =>
    if m1.isDigit && m2.isDigit then
      some ⟨hrs, 10 * dv m1 + dv m2, parseAmPm (rest.dropWhile Char.isWhitespace)⟩
    else none
  | _ => none

/-- Try the whole pattern anchored at the head of `l`.  A two-digit hour is
preferred; when the hour has two digits the one-digit alternative cannot
apply (its second character would have to be both a digit and `:`). -/
def matchClockAt (l : List Char) : Option ClockMatch :=
  match l with
  | c1 :: c2 :: c3 :: rest =>
    if c1.isDigit && c2.isDigit && c3 = ':' then
      matchClockTail (10 * dv c1 + dv c2) rest
    else if c1.isDigit && c2 = ':' then
      matchClockTail (dv c1) (c3 :: rest)
    else none
  | _ => none

/-- Leftmost match of the clock-time pattern anywhere in the input. -/
def findClock : List Char → Option ClockMatch
  | [] => none
  | c :: rest =>
    match matchClockAt (c :: rest) with
    | some m => some m
    | none => findClock rest

/-! ### `parseReminderTime` -/

/-- The instant "today at `h`:`m`" relative to `now` (model of
`targetTime.setHours(hours, minutes, 0, 0)` on a fresh `new Date()`). -/
def todayAt (now h m : Nat) : Nat :=
  now - now % 86400 + h * 3600 + m * 60

/-- Shallow embedding of `parseReminderTime` (src/utils/reminderUtils).
`now` is the current instant in epoch seconds; the source reads it from
`new Date()`.  Returns the parsed instant, or `none` for a parse failure. -/
def parseReminderTime (timeString : String) (now : Nat) : Option Nat :=
  if jsIncludes timeString "minutes" || jsIncludes timeString "minute" then
    some (now + 60 * matchIntOrZero timeString)
  else if jsIncludes timeString "hours" || jsIncludes timeString "hour" then
    some (now + 3600 * matchIntOrZero timeString)
  else if jsIncludes timeString "seconds" || jsIncludes timeString "second" then
    some (now + matchIntOrZero timeString)
  else
    match jsDateParse timeString with
    | some t => some t
    | none =>
      match findClock timeString.toList with
      | some cm =>
        let hours :=
          if cm.ampm = some true && cm.hours ≠ 12 then cm.hours + 12
          else if cm.ampm = some false && cm.hours = 12 then 0
          else cm.hours
        let target := todayAt now hours cm.minutes
        some (if target ≤ now then target + 86400 else target)
      | none => none

/-! ### Decimal numerals and clock-string builders

The claims quantify over inputs of the form `"N minutes"` and `"H:MM"`;
these builders produce exactly those strings.  `Nat.toDigits 10` is the
decimal numeral, most significant digit first, with no leading zeros —
the character list JavaScript number-to-string conversion yields for a
natural number. -/

/-- The decimal numeral of `n` as a character list. -/
def decimalDigits (n : Nat) : List Char := Nat.toDigits 10 n

/-- The decimal numeral of `n` as a string. -/
def decStr (n : Nat) : String := ⟨decimalDigits n⟩

/-- Two-digit clock rendering (`MM`) of a minute value below 100. -/
def mmChars (m : Nat) : List Char :=
  [Nat.digitChar (m / 10), Nat.digitChar (m % 10)]

/-- Two-digit clock rendering of `m` as a string. -/
def twoDigit (m : Nat) : String := ⟨mmChars m⟩

/-- The instant "today at `h`:`m`", rolled forward one day when it is not
strictly after `now` — the value produced by the clock-time branch of
`parseReminderTime`. -/
def rollForward (now h m : Nat) : Nat :=
  if todayAt now h m ≤ now then todayAt now h m + 86400 else todayAt now h m

/-! ### The local reminder store (`StorageService`) -/

/-- The `method` field of a reminder record. -/
inductive Method
  | none
  | firebase_push
  | local_only
deriving DecidableEq, Repr

/-- A persisted reminder record (the object built in
`ReminderService.scheduleReminder`).  `time` and `created` are epoch
seconds. -/
structure Reminder where
  id : String
  userId : String
  text : String
  originalText : String
  time : Nat
  confidence : ℚ
  created : Nat
  scheduled : Bool
  method : Method
  remoteId : Option String
deriving DecidableEq, Repr

/-- JavaScript truthiness of an optional string field (`null`/`undefined`
and the empty string are falsy). -/
def optStrTruthy : Option String → Bool
  | some s => s ≠ ""
  | Option.none => false

/-- `StorageService.getLocalReminders`: read the serialized collection. -/
def getLocalReminders (s : List Reminder) : List Reminder := s

/-- `StorageService.saveLocalReminder`: append the record.  The source
merges default fields and then spreads the argument over them, so every
default is overridden and the stored record is the argument itself. -/
def saveLocalReminder (s : List Reminder) (r : Reminder) : List Reminder :=
  s ++ [r]

/-- `StorageService.removeLocalReminder`: keep the records whose id
differs.  The source filters and rewrites the collection; it reports no
error when the id is absent (its `catch` block only logs). -/
def removeLocalReminder (s : List Reminder) (id : String) : List Reminder :=
  s.filter (fun r => r.id ≠ id)

/-- `StorageService.updateLocalReminder`: replace the record at the first
index whose id matches (the caller passes a fully populated record, so the
source's field merge replaces every field); `none` models the thrown
`Reminder not found`. -/
def updateLocalReminder : List Reminder → String → Reminder → Option (List Reminder)
  | [], _, _ => Option.none
  | r :: rest, id, r' =>
    if r.id = id then some (r' :: rest)
    else (updateLocalReminder rest id r').map (r :: ·)

/-- The store contract as written in the spec (§4.2): `remove(id)` reports
`NotFound` when no record has the id, otherwise removes it.  Stated from
the spec's words, for comparison with `removeLocalReminder`. -/
def specContractRemove (s : List Reminder) (id : String) : Option (List Reminder) :=
  if s.any (fun r => r.id = id) then some (s.filter (fun r => r.id ≠ id))
  else Option.none

/-- `StorageService.addMessageToHistory`: push the message, then drop the
oldest entry when the length exceeds 100. -/
def addMessageToHistory {α : Type} (history : List α) (message : α) : List α :=
  let h := history ++ [message]
  if h.length > 100 then h.drop 1 else h

/-! ### The reminder scheduler (`ReminderService`) -/

/-- Errors thrown by `ReminderService.scheduleReminder`. -/
inductive SchedErr
  | invalidTime
  | notFuture
  | updNotFound
deriving DecidableEq, Repr

/-- The non-message fields of the object returned by
`ReminderService.scheduleReminder` (the user-facing message strings are
omitted). -/
structure ScheduleResult where
  success : Bool
  method : Method
  reminderData : Reminder
deriving DecidableEq, Repr

/-- The environment of one `scheduleReminder` call: whether the push path
is available (`this.isInitialized && firebaseNotificationService.isReady()`)
and the outcome of the Firebase backend call — `.ok remoteId` when
`firebaseNotificationService.scheduleReminder` returned successfully,
`.error ()` when it threw. -/
structure PushEnv where
  ready : Bool
  outcome : Except Unit String
deriving Repr

/-- The local-only tail of `scheduleReminder`: mark the freshly saved
record `scheduled := false, method := local_only`, persist the mutation and
return the degraded result. -/
def localOnlyFinish (s1 : List Reminder) (r0 : Reminder) :
    List Reminder × Except SchedErr ScheduleResult :=
  let r2 := { r0 with scheduled := false, method := Method.local_only }
  match updateLocalReminder s1 r0.id r2 with
  | some s2 => (s2, Except.ok ⟨false, Method.local_only, r2⟩)
  | Option.none => (s1, Except.error SchedErr.updNotFound)

/-- Shallow embedding of `ReminderService.scheduleReminder`.  The store
state is threaded explicitly; the pair holds the store after the call and
the thrown error or returned result.  `newId` models `Date.now().toString()`
and `userId` the value read by `getUserId()`. -/
def scheduleReminder (env : PushEnv) (s : List Reminder) (text timeStr : String)
    (conf : ℚ) (now : Nat) (newId userId : String) :
    List Reminder × Except SchedErr ScheduleResult :=
  match parseReminderTime timeStr now with
  | Option.none => (s, Except.error SchedErr.invalidTime)
  | some t =>
    if t ≤ now then (s, Except.error SchedErr.notFuture)
    else
      let r0 : Reminder :=
        { id := newId, userId := userId, text := text, originalText := text,
          time := t, confidence := conf, created := now,
          scheduled := false, method := Method.none, remoteId := Option.none }
      let s1 := saveLocalReminder s r0
      if env.ready then
        match env.outcome with
        | Except.ok rid =>
          let r1 := { r0 with scheduled := true, method := Method.firebase_push,
                              remoteId := some rid }
          match updateLocalReminder s1 newId r1 with
          | some s2 => (s2, Except.ok ⟨true, Method.firebase_push, r1⟩)
          | Option.none => localOnlyFinish s1 r0
        | Except.error _ => localOnlyFinish s1 r0
      else localOnlyFinish s1 r0

/-- Error thrown by `ReminderService.cancelReminder`. -/
inductive CancelErr
  | notFound
deriving DecidableEq, Repr

/-- The object returned by `ReminderService.cancelReminder`. -/
structure CancelResult where
  success : Bool
  canceledRemote : Bool
  method : Method
deriving DecidableEq, Repr

/-- Store state, outcome and call trace of one `cancelReminder` call.
`remoteAttempted` records whether the Firebase cancellation call was
issued. -/
structure CancelStep where
  store : List Reminder
  result : Except CancelErr CancelResult
  remoteAttempted : Bool
deriving Repr

/-- Shallow embedding of `ReminderService.cancelReminder`.  `remote` is the
outcome of `firebaseNotificationService.cancelReminder`: `.ok b` when it
returned the boolean `b`, `.error ()` when it threw (the source catches the
throw and leaves `cancelSuccess` false). -/
def cancelReminder (remote : Except Unit Bool) (s : List Reminder) (id : String) :
    CancelStep :=
  match (getLocalReminders s).find? (fun r => r.id = id) with
  | Option.none => ⟨s, Except.error CancelErr.notFound, false⟩
  | some r =>
    let attempted := r.method = Method.firebase_push && optStrTruthy r.remoteId
    let cancelSuccess :=
      if attempted then
        match remote with
        | Except.ok b => b
        | Except.error _ => false
      else false
    ⟨removeLocalReminder s id, Except.ok ⟨true, cancelSuccess, r.method⟩, attempted⟩

/-- Shallow embedding of `ReminderService.getReminders`: the returned
active list (records strictly in the future) and the store after the
eviction loop has removed each expired record's id. -/
def getReminders (s : List Reminder) (now : Nat) : List Reminder × List Reminder :=
  let active := s.filter (fun r => now < r.time)
  let expired := s.filter (fun r => r.time ≤ now)
  (active, expired.foldl (fun st e => removeLocalReminder st e.id) s)

/-! ### The intent router (`sendMessage` in ChatScreen) -/

/-- The intent classification response (`POST /intent/classify`). -/
structure IntentResult where
  success : Bool
  intent : String
  time : Option String
  confidence : ℚ

/-- The two handlers an utterance can be routed to. -/
inductive Path
  | reminder
  | chat
deriving DecidableEq, Repr

/-- The routing condition of `sendMessage`:
`intentResult.success && intentResult.intent === 'REMINDER' &&
intentResult.time && intentResult.confidence >= 0.8`. -/
def routeCondition (ir : IntentResult) : Bool :=
  ir.success && ir.intent = "REMINDER" && optStrTruthy ir.time
    && (0.8 : ℚ) ≤ ir.confidence

/-- Shallow embedding of the routing skeleton of `sendMessage`: the
sequence of handlers invoked for one utterance.  `classify` is the outcome
of `APIService.classifyIntent` (`.error ()` when it threw); `reminderOk`
is whether `handleAlarmReminder` completed without throwing.
`handleNormalChat` never throws (it catches internally), so a listed
`chat` entry always completes. -/
def sendMessage (classify : Except Unit IntentResult) (reminderOk : Bool) :
    List Path :=
  match classify with
  | Except.error _ => [Path.chat]
  | Except.ok ir =>
    if routeCondition ir then
      if reminderOk then [Path.reminder] else [Path.reminder, Path.chat]
    else [Path.chat]

/-! ### The Firebase token lifecycle (`FirebaseNotificationService`) -/

/-- The mutable state of `FirebaseNotificationService` relevant to the
token lifecycle: the in-memory token, the `fcm_token` storage key, the
`device_registered` storage flag, and the initialization flag. -/
structure TokenState where
  isInitialized : Bool
  fcmToken : Option String
  storedToken : Option String
  deviceRegistered : Bool
deriving DecidableEq, Repr

/-- Shallow embedding of `registerWithBackend`.  `backend` is the outcome
of `APIService.registerDeviceToken`: `.ok b` for a response with
`success = b`, `.error ()` for a thrown network error.  The source sets the
`device_registered` flag only on success and swallows every failure
(including the missing-token throw), leaving the state unchanged. -/
def registerWithBackend (backend : Except Unit Bool) (st : TokenState) : TokenState :=
  match st.fcmToken with
  | Option.none => st
  | some _ =>
    match backend with
    | Except.ok true => { st with deviceRegistered := true }
    | _ => st

/-- Shallow embedding of the `onTokenRefresh` handler: cache the new token
in memory and in storage, then call `registerWithBackend`. -/
def onTokenRefresh (token : String) (backend : Except Unit Bool)
    (st : TokenState) : TokenState :=
  registerWithBackend backend
    { st with fcmToken := some token, storedToken := some token }

/-- Shallow embedding of `FirebaseNotificationService.scheduleReminder`:
on success returns the token placed in the payload and the backend's
`remoteId`; `.error ()` models every thrown path (not initialized, no
token, backend failure). -/
def fbScheduleReminder (st : TokenState) (backend : Except Unit (Bool × String)) :
    Except Unit (String × String) :=
  if st.isInitialized then
    match st.fcmToken with
    | Option.none => Except.error ()
    | some tok =>
      match backend with
      | Except.ok (true, rid) => Except.ok (tok, rid)
      | _ => Except.error ()
  else Except.error ()

/-! ### Store lemmas -/

theorem updateLocalReminder_append (s : List Reminder) (r0 r1 : Reminder)
    (id : String) (hid : r0.id = id) (hfresh : ∀ r ∈ s, r.id ≠ id) :
    updateLocalReminder (s ++ [r0]) id r1 = some (s ++ [r1]) := by
  induction s with
  | nil => simp [updateLocalReminder, hid]
  | cons a as ih =>
    simp only [List.cons_append, updateLocalReminder, List.append_eq]
    rw [if_neg (hfresh a (by simp)), ih (fun r hr => hfresh r (by simp [hr]))]
    rfl

theorem removeLocalReminder_append_fresh (s : List Reminder) (r' : Reminder)
    (id : String) (hid : r'.id = id) (hfresh : ∀ r ∈ s, r.id ≠ id) :
    removeLocalReminder (s ++ [r']) id = s := by
  unfold removeLocalReminder
  rw [List.filter_append]
  have h1 : s.filter (fun r => r.id ≠ id) = s :=
    List.filter_eq_self.mpr (fun a ha => by simpa using hfresh a ha)
  have h2 : [r'].filter (fun r => r.id ≠ id) = [] := by simp [hid]
  rw [h1, h2, List.append_nil]

theorem find?_append_fresh (s : List Reminder) (r' : Reminder) (id : String)
    (hid : r'.id = id) (hfresh : ∀ r ∈ s, r.id ≠ id) :
    (s ++ [r']).find? (fun x => x.id = id) = some r' := by
  induction s with
  | nil => simp [List.find?, hid]
  | cons a as ih =>
    simp only [List.cons_append, List.find?]
    rw [decide_eq_false (hfresh a (by simp))]
    exact ih (fun r hr => hfresh r (by simp [hr]))

theorem mem_foldl_remove (l s : List Reminder) (r' : Reminder)
    (h : r' ∈ l.foldl (fun st e => removeLocalReminder st e.id) s) :
    r' ∈ s ∧ ∀ e ∈ l, r'.id ≠ e.id := by
  induction l generalizing s with
  | nil => simpa using h
  | cons a as ih =>
    simp only [List.foldl_cons] at h
    obtain ⟨h1, h2⟩ := ih _ h
    rw [removeLocalReminder, List.mem_filter] at h1
    refine ⟨h1.1, fun e he => ?_⟩
    rcases List.mem_cons.mp he with rfl | he'
    · simpa using h1.2
    · exact h2 e he'

theorem localOnlyFinish_append (s : List Reminder) (r0 : Reminder)
    (hfresh : ∀ r ∈ s, r.id ≠ r0.id) :
    localOnlyFinish (s ++ [r0]) r0
      = (s ++ [{ r0 with scheduled := false, method := Method.local_only }],
         Except.ok ⟨false, Method.local_only,
           { r0 with scheduled := false, method := Method.local_only }⟩) := by
  simp only [localOnlyFinish]
  rw [updateLocalReminder_append s r0 _ r0.id rfl hfresh]

theorem addMessageToHistory_length_le {α : Type} (h : List α) (m : α)
    (hle : h.length ≤ 100) : (addMessageToHistory h m).length ≤ 100 := by
  simp only [addMessageToHistory]
  split
  · simp only [List.length_drop, List.length_append, List.length_singleton]
    omega
  · next hc =>
    simp only [not_lt, List.length_append, List.length_singleton] at hc ⊢
    omega

/-- Shape of a successful `scheduleReminder` call: the store grows by
exactly one record carrying the fresh id, and when the push path is not
taken the record ends up `local_only` and unscheduled. -/
theorem scheduleReminder_shape (env : PushEnv) (s : List Reminder)
    (text timeStr : String) (conf : ℚ) (now t : Nat) (newId userId : String)
    (hp : parseReminderTime timeStr now = some t) (hf : now < t)
    (hfresh : ∀ r ∈ s, r.id ≠ newId) :
    ∃ r' : Reminder,
      (scheduleReminder env s text timeStr conf now newId userId).1 = s ++ [r']
      ∧ r'.id = newId
      ∧ ((env.ready = false ∨ env.outcome = Except.error ()) →
          r'.method = Method.local_only ∧ r'.scheduled = false
          ∧ (scheduleReminder env s text timeStr conf now newId userId).2
              = Except.ok ⟨false, Method.local_only, r'⟩) := by
  obtain ⟨ready, outcome⟩ := env
  simp only [scheduleReminder, hp, saveLocalReminder]
  rw [if_neg (not_le.mpr hf)]
  cases ready with
  | false =>
    simp only [Bool.false_eq_true, if_false]
    rw [localOnlyFinish_append s _ hfresh]
    exact ⟨_, rfl, rfl, fun _ => ⟨rfl, rfl, rfl⟩⟩
  | true =>
    simp only [if_true]
    cases outcome with
    | error e =>
      rw [localOnlyFinish_append s _ hfresh]
      exact ⟨_, rfl, rfl, fun _ => ⟨rfl, rfl, rfl⟩⟩
    | ok rid =>
      have hupd := updateLocalReminder_append s
        { id := newId, userId := userId, text := text, originalText := text,
          time := t, confidence := conf, created := now,
          scheduled := false, method := Method.none, remoteId := Option.none }
        { id := newId, userId := userId, text := text, originalText := text,
          time := t, confidence := conf, created := now,
          scheduled := true, method := Method.firebase_push,
          remoteId := some rid }
        newId rfl hfresh
      simp only [hupd]
      refine ⟨_, rfl, rfl, fun hfail => ?_⟩
      rcases hfail with h | h <;> simp at h

/-! ### Claims about the store (C9, C10) -/

/-- Claim C9 (counterexample): `removeLocalReminder` called with an id that
is not in the store succeeds (it returns the unchanged store and signals
nothing), whereas the spec contract `remove(id) -> ok | NotFound` requires a
`NotFound` report, as `specContractRemove` shows at the same input. -/
theorem removeLocalReminder_missing_id_succeeds :
    removeLocalReminder [] "1" = [] ∧ specContractRemove [] "1" = Option.none := by
  exact ⟨rfl, rfl⟩

/-- Claim C9 (amended): `removeLocalReminder` always succeeds: it removes
exactly the records whose id matches, leaves the store unchanged when the id
is absent, and never reports `NotFound`. -/
theorem removeLocalReminder_semantics :
    ∀ (s : List Reminder) (id : String),
      removeLocalReminder s id = s.filter (fun r => r.id ≠ id)
      ∧ ((∀ r ∈ s, r.id ≠ id) → removeLocalReminder s id = s)
      ∧ ∀ r ∈ removeLocalReminder s id, r.id ≠ id := by
  intro s id
  refine ⟨rfl, fun hall => ?_, fun r hr => ?_⟩
  · exact List.filter_eq_self.mpr (fun a ha => by simpa using hall a ha)
  · rw [removeLocalReminder, List.mem_filter] at hr
    simpa using hr.2

/-- Witness for the amended C9 at a concrete store and id. -/
theorem removeLocalReminder_semantics_witness :
    removeLocalReminder [] "1" = [] :=
  (removeLocalReminder_semantics [] "1").2.1 (by simp)

/-- Claim C10: `addMessageToHistory` appends the new message, drops the
oldest message exactly when the length would exceed 100, and therefore keeps
the history at 100 messages or fewer after any sequence of calls starting
from a history of length at most 100. -/
theorem addMessageToHistory_bounded :
    ∀ (α : Type) (h : List α) (m : α), h.length ≤ 100 →
      addMessageToHistory h m
          = (if h.length = 100 then h.drop 1 ++ [m] else h ++ [m])
      ∧ (addMessageToHistory h m).length ≤ 100
      ∧ ∀ ms : List α, (ms.foldl addMessageToHistory h).length ≤ 100 := by
  intro α h m hle
  refine ⟨?_, addMessageToHistory_length_le h m hle, ?_⟩
  · unfold addMessageToHistory
    by_cases hc : h.length = 100
    · have hgt : (h ++ [m]).length > 100 := by simp [hc]
      rw [if_pos hgt, if_pos hc]
      have hne : h ≠ [] := by intro he; rw [he] at hc; simp at hc
      rw [List.drop_append_of_le_length (by omega)]
    · have hlt : ¬ (h ++ [m]).length > 100 := by
        simp only [List.length_append, List.length_singleton]; omega
      rw [if_neg hlt, if_neg hc]
  · intro ms
    induction ms generalizing h with
    | nil => simpa using hle
    | cons x xs ih =>
      simp only [List.foldl_cons]
      exact ih _ (addMessageToHistory_length_le h x hle)

/-- Witness for C10 at a concrete history and message. -/
theorem addMessageToHistory_bounded_witness :
    addMessageToHistory (List.range 100) 7
        = (if (List.range 100).length = 100
            then (List.range 100).drop 1 ++ [7] else List.range 100 ++ [7])
      ∧ (addMessageToHistory (List.range 100) 7).length ≤ 100
      ∧ ∀ ms : List Nat,
          (ms.foldl addMessageToHistory (List.range 100)).length ≤ 100 :=
  addMessageToHistory_bounded Nat (List.range 100) 7 (by simp)

/-! ### Claims about the scheduler (C1, C2) -/

/-- Claim C1: when the time expression parses to a strictly future instant,
`scheduleReminder` persists exactly one new record (the store grows by
exactly that record), for every push environment; and when the push path is
not ready or the push call fails, the final persisted record has
`method = local_only` and `scheduled = false`, with the degraded result
returned. -/
theorem scheduleReminder_persists_one (env : PushEnv) (s : List Reminder)
    (text timeStr : String) (conf : ℚ) (now t : Nat) (newId userId : String)
    (hp : parseReminderTime timeStr now = some t) (hf : now < t)
    (hfresh : ∀ r ∈ s, r.id ≠ newId) :
    ∃ r' : Reminder,
      (scheduleReminder env s text timeStr conf now newId userId).1 = s ++ [r']
      ∧ r'.id = newId
      ∧ ((env.ready = false ∨ env.outcome = Except.error ()) →
          r'.method = Method.local_only ∧ r'.scheduled = false
          ∧ (scheduleReminder env s text timeStr conf now newId userId).2
              = Except.ok ⟨false, Method.local_only, r'⟩) :=
  scheduleReminder_shape env s text timeStr conf now t newId userId hp hf hfresh

/-- Witness for C1: a concrete schedule call in a failing push environment
persists exactly one `local_only`, unscheduled record. -/
theorem scheduleReminder_persists_one_witness :
    ∃ r' : Reminder,
      (scheduleReminder ⟨false, Except.error ()⟩ [] "call mom" "5 minutes"
          0.9 1000 "id1" "u1").1 = [] ++ [r']
      ∧ r'.id = "id1"
      ∧ ((PushEnv.mk false (Except.error ())).ready = false
            ∨ (PushEnv.mk false (Except.error ())).outcome = Except.error () →
          r'.method = Method.local_only ∧ r'.scheduled = false
          ∧ (scheduleReminder ⟨false, Except.error ()⟩ [] "call mom" "5 minutes"
              0.9 1000 "id1" "u1").2
              = Except.ok ⟨false, Method.local_only, r'⟩) :=
  scheduleReminder_persists_one ⟨false, Except.error ()⟩ [] "call mom"
    "5 minutes" 0.9 1000 1300 "id1" "u1" (by rfl) (by omega) (by simp)

/-- Claim C2: when the time expression fails to parse, or parses to an
instant that is not strictly in the future, `scheduleReminder` throws an
invalid-time error and the store is unchanged — the future check precedes
the first write. -/
theorem scheduleReminder_invalid_time (env : PushEnv) (s : List Reminder)
    (text timeStr : String) (conf : ℚ) (now : Nat) (newId userId : String)
    (hbad : parseReminderTime timeStr now = Option.none
      ∨ ∃ t, parseReminderTime timeStr now = some t ∧ t ≤ now) :
    (scheduleReminder env s text timeStr conf now newId userId).1 = s
    ∧ ((scheduleReminder env s text timeStr conf now newId userId).2
          = Except.error SchedErr.invalidTime
      ∨ (scheduleReminder env s text timeStr conf now newId userId).2
          = Except.error SchedErr.notFuture) := by
  rcases hbad with hnone | ⟨t, hsome, hle⟩
  · simp only [scheduleReminder, hnone]
    exact ⟨trivial, Or.inl trivial⟩
  · simp only [scheduleReminder, hsome]
    rw [if_pos hle]
    exact ⟨rfl, Or.inr rfl⟩

/-- Witness for C2 at an unparseable time expression and at a past
instant. -/
theorem scheduleReminder_invalid_time_witness :
    (scheduleReminder ⟨true, Except.ok "r9"⟩ [] "x" "gibberish" 0.9 1000
        "id1" "u1").1 = []
    ∧ ((scheduleReminder ⟨true, Except.ok "r9"⟩ [] "x" "gibberish" 0.9 1000
          "id1" "u1").2 = Except.error SchedErr.invalidTime
      ∨ (scheduleReminder ⟨true, Except.ok "r9"⟩ [] "x" "gibberish" 0.9 1000
          "id1" "u1").2 = Except.error SchedErr.notFuture) :=
  scheduleReminder_invalid_time ⟨true, Except.ok "r9"⟩ [] "x" "gibberish"
    0.9 1000 "id1" "u1" (Or.inl (by rfl))

/-! ### Claims about cancellation and listing (C3, C4) -/

/-- Claim C3: `cancelReminder` always removes the local record (remote
failure included), attempts the remote cancellation exactly when `method`
is the push method and `remoteId` is set, and reports
`canceledRemote = true` iff that remote call returned true; and a schedule
immediately followed by a cancel of the new record's id leaves zero records
with that id in the store (the original store is restored). -/
theorem cancelReminder_semantics :
    (∀ (remote : Except Unit Bool) (s : List Reminder) (id : String)
        (r : Reminder),
      s.find? (fun x => x.id = id) = some r →
        (cancelReminder remote s id).store = removeLocalReminder s id
        ∧ (cancelReminder remote s id).remoteAttempted
            = (r.method = Method.firebase_push && optStrTruthy r.remoteId)
        ∧ ∃ cs : Bool,
            (cancelReminder remote s id).result
              = Except.ok ⟨true, cs, r.method⟩
            ∧ (cs = true ↔
                (r.method = Method.firebase_push && optStrTruthy r.remoteId)
                    = true
                ∧ remote = Except.ok true))
    ∧ (∀ (env : PushEnv) (remote : Except Unit Bool) (s : List Reminder)
        (text timeStr : String) (conf : ℚ) (now t : Nat)
        (newId userId : String),
        parseReminderTime timeStr now = some t → now < t →
        (∀ r ∈ s, r.id ≠ newId) →
        (cancelReminder remote
            (scheduleReminder env s text timeStr conf now newId userId).1
            newId).store = s
        ∧ ∀ r ∈ (cancelReminder remote
            (scheduleReminder env s text timeStr conf now newId userId).1
            newId).store, r.id ≠ newId) := by
  constructor
  · intro remote s id r hfind
    simp only [cancelReminder, getLocalReminders, hfind]
    refine ⟨trivial, trivial, _, rfl, ?_⟩
    by_cases ha :
        (r.method = Method.firebase_push && optStrTruthy r.remoteId) = true
    · rw [if_pos ha]
      cases remote with
      | ok b =>
        cases b with
        | true => simp [ha]
        | false => simp [ha]
      | error u => simp [ha]
    · rw [if_neg ha]
      simp [ha]
  · intro env remote s text timeStr conf now t newId userId hp hf hfresh
    obtain ⟨r', hstore, hid, _⟩ :=
      scheduleReminder_shape env s text timeStr conf now t newId userId
        hp hf hfresh
    rw [hstore]
    have hfind := find?_append_fresh s r' newId hid hfresh
    simp only [cancelReminder, getLocalReminders, hfind]
    have hrem := removeLocalReminder_append_fresh s r' newId hid hfresh
    refine ⟨hrem, ?_⟩
    rw [hrem]
    exact hfresh

/-- Witness for C3 at a concrete push-scheduled record and a successful
remote call, and a concrete schedule-then-cancel pair. -/
theorem cancelReminder_semantics_witness :
    ((cancelReminder (Except.ok true)
        [{ id := "a", userId := "u", text := "x", originalText := "x",
           time := 99, confidence := 0.9, created := 0, scheduled := true,
           method := Method.firebase_push, remoteId := some "r7" }]
        "a").store
      = removeLocalReminder
          [{ id := "a", userId := "u", text := "x", originalText := "x",
             time := 99, confidence := 0.9, created := 0, scheduled := true,
             method := Method.firebase_push, remoteId := some "r7" }] "a")
    ∧ (cancelReminder (Except.ok true)
        (scheduleReminder ⟨false, Except.error ()⟩ [] "x" "5 minutes" 0.9
          1000 "id1" "u1").1 "id1").store = [] := by
  constructor
  · exact ((cancelReminder_semantics.1 (Except.ok true) _ "a" _) (by rfl)).1
  · exact (cancelReminder_semantics.2 ⟨false, Except.error ()⟩
      (Except.ok true) [] "x" "5 minutes" 0.9 1000 1300 "id1" "u1"
      (by rfl) (by omega) (by simp)).1

/-- Claim C4: listing evicts every expired record from the backing store
and returns exactly the strictly-future ones; cancelling an evicted
record's id afterwards reports `NotFound`. -/
theorem getReminders_evicts (s : List Reminder) (now : Nat) :
    (getReminders s now).1 = s.filter (fun r => now < r.time)
    ∧ (∀ r ∈ (getReminders s now).1, now < r.time)
    ∧ (∀ r ∈ (getReminders s now).2, now < r.time)
    ∧ ∀ r ∈ s, r.time ≤ now →
        ∀ remote : Except Unit Bool,
          (cancelReminder remote (getReminders s now).2 r.id).result
            = Except.error CancelErr.notFound := by
  refine ⟨rfl, ?_, ?_, ?_⟩
  · intro r hr
    rw [getReminders] at hr
    simp only [List.mem_filter] at hr
    simpa using hr.2
  · intro r hr
    simp only [getReminders] at hr
    obtain ⟨hmem, hall⟩ := mem_foldl_remove _ _ _ hr
    by_contra hnot
    have hexp : r ∈ s.filter (fun x => x.time ≤ now) := by
      simp only [List.mem_filter]
      exact ⟨hmem, by simpa using Nat.le_of_not_lt hnot⟩
    exact hall r hexp rfl
  · intro r hr hle remote
    have hnone : (getReminders s now).2.find? (fun x => x.id = r.id)
        = Option.none := by
      cases hfind : (getReminders s now).2.find? (fun x => x.id = r.id) with
      | none => rfl
      | some r2 =>
        exfalso
        have hmem2 : r2 ∈ (getReminders s now).2 :=
          List.mem_of_find?_eq_some hfind
        have heq : r2.id = r.id := by
          have := List.find?_some hfind
          simpa using this
        simp only [getReminders] at hmem2
        obtain ⟨_, hall⟩ := mem_foldl_remove _ _ _ hmem2
        refine hall r ?_ heq
        simp only [List.mem_filter]
        exact ⟨hr, by simpa using hle⟩
    simp [cancelReminder, getLocalReminders, hnone]

/-- Witness for C4: a store holding one expired and one future reminder. -/
theorem getReminders_evicts_witness :
    ((getReminders
        [{ id := "a", userId := "u", text := "x", originalText := "x",
           time := 50, confidence := 0.9, created := 0, scheduled := false,
           method := Method.local_only, remoteId := Option.none },
         { id := "b", userId := "u", text := "y", originalText := "y",
           time := 500, confidence := 0.9, created := 0, scheduled := false,
           method := Method.local_only, remoteId := Option.none }] 100).2
      = [{ id := "b", userId := "u", text := "y", originalText := "y",
           time := 500, confidence := 0.9, created := 0, scheduled := false,
           method := Method.local_only, remoteId := Option.none }])
    ∧ (cancelReminder (Except.ok true)
        (getReminders
          [{ id := "a", userId := "u", text := "x", originalText := "x",
             time := 50, confidence := 0.9, created := 0, scheduled := false,
             method := Method.local_only, remoteId := Option.none },
           { id := "b", userId := "u", text := "y", originalText := "y",
             time := 500, confidence := 0.9, created := 0, scheduled := false,
             method := Method.local_only, remoteId := Option.none }] 100).2
        "a").result = Except.error CancelErr.notFound :=
  ⟨by rfl,
   (getReminders_evicts _ 100).2.2.2
     { id := "a", userId := "u", text := "x", originalText := "x",
       time := 50, confidence := 0.9, created := 0, scheduled := false,
       method := Method.local_only, remoteId := Option.none }
     (by simp) (by decide) (Except.ok true)⟩

/-! ### Claim about the intent router (C5) -/

/-- Claim C5: the reminder path is invoked exactly when the classification
succeeded, the intent label is the reminder category, the time field is
present (truthy) and the confidence is at least 0.8 (0.80 routes to
Reminder, 0.79 to Chat); every other case, classification failure
included, routes to Chat, and a reminder-path failure falls back to Chat
for the same utterance exactly once. -/
theorem sendMessage_routing :
    (∀ (ir : IntentResult) (reminderOk : Bool),
      Path.reminder ∈ sendMessage (Except.ok ir) reminderOk ↔
        ir.success = true ∧ ir.intent = "REMINDER"
        ∧ optStrTruthy ir.time = true ∧ (0.8 : ℚ) ≤ ir.confidence)
    ∧ (∀ reminderOk, sendMessage (Except.error ()) reminderOk = [Path.chat])
    ∧ (∀ ir reminderOk, routeCondition ir = false →
        sendMessage (Except.ok ir) reminderOk = [Path.chat])
    ∧ (∀ ir, routeCondition ir = true →
        sendMessage (Except.ok ir) false = [Path.reminder, Path.chat]
        ∧ sendMessage (Except.ok ir) true = [Path.reminder])
    ∧ (∀ (c : Except Unit IntentResult) (reminderOk : Bool),
        (sendMessage c reminderOk).count Path.chat ≤ 1)
    ∧ (∀ (success : Bool) (intent : String) (time? : Option String),
        routeCondition ⟨success, intent, time?, 0.8⟩
          = (success && (intent = "REMINDER") && optStrTruthy time?))
    ∧ (∀ (success : Bool) (intent : String) (time? : Option String),
        routeCondition ⟨success, intent, time?, 0.79⟩ = false) := by
  refine ⟨?_, fun _ => rfl, ?_, ?_, ?_, ?_, ?_⟩
  · intro ir reminderOk
    have hcond : routeCondition ir = true ↔
        ir.success = true ∧ ir.intent = "REMINDER"
        ∧ optStrTruthy ir.time = true ∧ (0.8 : ℚ) ≤ ir.confidence := by
      simp [routeCondition, Bool.and_eq_true, and_assoc]
    rw [← hcond]
    cases hrc : routeCondition ir with
    | true => cases reminderOk <;> simp [sendMessage, hrc]
    | false => cases reminderOk <;> simp [sendMessage, hrc]
  · intro ir reminderOk hrc
    cases reminderOk <;> simp [sendMessage, hrc]
  · intro ir hrc
    exact ⟨by simp [sendMessage, hrc], by simp [sendMessage, hrc]⟩
  · intro c reminderOk
    cases c with
    | error u => simp [sendMessage]
    | ok ir =>
      cases hrc : routeCondition ir <;> cases reminderOk <;>
        simp [sendMessage, hrc]
  · intro success intent time?
    simp only [routeCondition]
    rw [show decide ((0.8 : ℚ) ≤ 0.8) = true from by norm_num]
    rw [Bool.and_true]
  · intro success intent time?
    simp only [routeCondition]
    rw [show decide ((0.8 : ℚ) ≤ 0.79) = false from by norm_num]
    rw [Bool.and_false]

/-- Witness for C5: a confident reminder classification routes to the
reminder path. -/
theorem sendMessage_routing_witness :
    Path.reminder ∈
      sendMessage (Except.ok ⟨true, "REMINDER", some "5 minutes", 0.9⟩) true :=
  (sendMessage_routing.1 ⟨true, "REMINDER", some "5 minutes", 0.9⟩ true).mpr
    ⟨rfl, rfl, by decide, by norm_num⟩

/-! ### Claim about the token-refresh handler (C8) -/

/-- Claim C8 (counterexample): a token refresh whose re-registration call
fails leaves the `device_registered` flag at its old `true` value; the
handler never marks the token unregistered, contrary to the claim that the
registered flag is false until re-registration succeeds. -/
theorem onTokenRefresh_keeps_registered_flag :
    (onTokenRefresh "tok-new" (Except.error ())
        ⟨true, some "tok-old", some "tok-old", true⟩).deviceRegistered
      = true := by
  rfl

/-- Claim C8 (amended): the refresh handler replaces the cached token (in
memory and in storage) with the new value and triggers re-registration,
which sets the registered flag on success; the flag is not reset to false —
on a failed re-registration it keeps its previous value; and a schedule
call issued after the refresh places the newer token in its payload. -/
theorem onTokenRefresh_semantics :
    ∀ (st : TokenState) (tok : String) (backend : Except Unit Bool),
      (onTokenRefresh tok backend st).fcmToken = some tok
      ∧ (onTokenRefresh tok backend st).storedToken = some tok
      ∧ (backend = Except.ok true →
          (onTokenRefresh tok backend st).deviceRegistered = true)
      ∧ (backend ≠ Except.ok true →
          (onTokenRefresh tok backend st).deviceRegistered
            = st.deviceRegistered)
      ∧ (st.isInitialized = true → ∀ rid : String,
          fbScheduleReminder (onTokenRefresh tok backend st)
              (Except.ok (true, rid))
            = Except.ok (tok, rid)) := by
  intro st tok backend
  cases backend with
  | ok b =>
    cases b with
    | true =>
      refine ⟨rfl, rfl, fun _ => rfl, fun hne => absurd rfl hne, ?_⟩
      intro hinit rid
      simp [fbScheduleReminder, onTokenRefresh, registerWithBackend, hinit]
    | false =>
      refine ⟨rfl, rfl, fun h => by simp at h, fun _ => rfl, ?_⟩
      intro hinit rid
      simp [fbScheduleReminder, onTokenRefresh, registerWithBackend, hinit]
  | error u =>
    refine ⟨rfl, rfl, fun h => by simp at h, fun _ => rfl, ?_⟩
    intro hinit rid
    simp [fbScheduleReminder, onTokenRefresh, registerWithBackend, hinit]

/-- Witness for the amended C8 at a concrete state, token and failing
backend. -/
theorem onTokenRefresh_semantics_witness :
    (onTokenRefresh "new" (Except.error ())
        ⟨true, some "old", some "old", false⟩).fcmToken = some "new"
    ∧ (onTokenRefresh "new" (Except.error ())
        ⟨true, some "old", some "old", false⟩).deviceRegistered = false :=
  ⟨(onTokenRefresh_semantics ⟨true, some "old", some "old", false⟩ "new"
      (Except.error ())).1,
   (onTokenRefresh_semantics ⟨true, some "old", some "old", false⟩ "new"
      (Except.error ())).2.2.2.1 (by simp)⟩

/-! ### String-scanning lemmas -/

theorem leadsWith_self_append (pat rest : List Char) :
    leadsWith pat (pat ++ rest) = true := by
  induction pat with
  | nil => rfl
  | cons c cs ih => simp [leadsWith, ih]

theorem occursIn_self_append (pat rest : List Char) :
    occursIn pat (pat ++ rest) = true := by
  cases pat with
  | nil =>
    cases rest with
    | nil => rfl
    | cons c cs => simp [occursIn, leadsWith]
  | cons c cs =>
    simp only [List.cons_append, occursIn, Bool.or_eq_true]
    exact Or.inl (by simpa using leadsWith_self_append (c :: cs) rest)

theorem occursIn_append_right (pat x y : List Char)
    (h : occursIn pat y = true) : occursIn pat (x ++ y) = true := by
  induction x with
  | nil => simpa using h
  | cons c cs ih => simp [occursIn, ih]

theorem occursIn_cons_self (c : Char) (pat : List Char) :
    occursIn pat (c :: pat) = true := by
  have h := occursIn_self_append pat []
  rw [List.append_nil] at h
  simp [occursIn, h]

theorem mem_of_leadsWith (pat l : List Char) (h : leadsWith pat l = true) :
    ∀ c ∈ pat, c ∈ l := by
  induction pat generalizing l with
  | nil => intro c hc; simp at hc
  | cons a as ih =>
    cases l with
    | nil => simp [leadsWith] at h
    | cons b bs =>
      simp only [leadsWith, Bool.and_eq_true, decide_eq_true_eq] at h
      obtain ⟨rfl, h2⟩ := h
      intro c hc
      rcases List.mem_cons.mp hc with rfl | hc'
      · exact List.mem_cons_self _ _
      · exact List.mem_cons_of_mem _ (ih bs h2 c hc')

theorem mem_of_occursIn (pat l : List Char) (h : occursIn pat l = true) :
    ∀ c ∈ pat, c ∈ l := by
  induction l with
  | nil =>
    intro c hc
    simp only [occursIn, List.isEmpty_iff] at h
    subst h
    simp at hc
  | cons b bs ih =>
    simp only [occursIn, Bool.or_eq_true] at h
    rcases h with h | h
    · exact mem_of_leadsWith _ _ h
    · intro c hc
      exact List.mem_cons_of_mem _ (ih h c hc)

theorem occursIn_eq_false (pat l : List Char) (c : Char) (hc : c ∈ pat)
    (hl : c ∉ l) : occursIn pat l = false := by
  cases hb : occursIn pat l with
  | false => rfl
  | true => exact absurd (mem_of_occursIn pat l hb c hc) hl

/-! ### Decimal numeral lemmas -/

theorem toDigitsCore_acc (fuel : Nat) : ∀ (n : Nat) (acc : List Char),
    Nat.toDigitsCore 10 fuel n acc = Nat.toDigitsCore 10 fuel n [] ++ acc := by
  induction fuel with
  | zero => intro n acc; simp [Nat.toDigitsCore]
  | succ f ih =>
    intro n acc
    simp only [Nat.toDigitsCore]
    by_cases h : n / 10 = 0
    · simp [h]
    · rw [if_neg h, if_neg h, ih (n / 10), ih (n / 10) [Nat.digitChar (n % 10)]]
      simp

theorem toDigitsCore_fuel (f1 : Nat) : ∀ (f2 n : Nat), n < f1 → n < f2 →
    Nat.toDigitsCore 10 f1 n [] = Nat.toDigitsCore 10 f2 n [] := by
  induction f1 with
  | zero => intro f2 n h1 _; omega
  | succ f ih =>
    intro f2 n h1 h2
    cases f2 with
    | zero => omega
    | succ g =>
      simp only [Nat.toDigitsCore]
      by_cases h : n / 10 = 0
      · simp [h]
      · rw [if_neg h, if_neg h, toDigitsCore_acc f, toDigitsCore_acc g]
        have hn : 0 < n := by
          rcases Nat.eq_zero_or_pos n with rfl | hp
          · simp at h
          · exact hp
        have hlt : n / 10 < n := Nat.div_lt_self hn (by norm_num)
        rw [ih g (n / 10) (by omega) (by omega)]

theorem decimalDigits_eq_of_lt (n : Nat) (h : n < 10) :
    decimalDigits n = [Nat.digitChar n] := by
  simp only [decimalDigits, Nat.toDigits, Nat.toDigitsCore]
  rw [if_pos (Nat.div_eq_of_lt h), Nat.mod_eq_of_lt h]

theorem decimalDigits_eq_append (n : Nat) (h : 10 ≤ n) :
    decimalDigits n
      = decimalDigits (n / 10) ++ [Nat.digitChar (n % 10)] := by
  have hpos : 0 < n := by omega
  have h0 : ¬ n / 10 = 0 := by
    have := (Nat.one_le_div_iff (by norm_num : 0 < 10)).mpr h
    omega
  have hlt : n / 10 < n := Nat.div_lt_self hpos (by norm_num)
  have step1 : Nat.toDigitsCore 10 (n + 1) n []
      = Nat.toDigitsCore 10 n (n / 10) [Nat.digitChar (n % 10)] := by
    simp only [Nat.toDigitsCore]
    rw [if_neg h0]
  show Nat.toDigitsCore 10 (n + 1) n []
      = Nat.toDigitsCore 10 (n / 10 + 1) (n / 10) [] ++ [Nat.digitChar (n % 10)]
  rw [step1, toDigitsCore_acc,
    toDigitsCore_fuel n (n / 10 + 1) (n / 10) hlt (Nat.lt_succ_self _)]

theorem digitChar_isDigit (d : Nat) (h : d < 10) :
    (Nat.digitChar d).isDigit = true := by
  interval_cases d <;> decide

theorem dv_digitChar (d : Nat) (h : d < 10) : dv (Nat.digitChar d) = d := by
  interval_cases d <;> decide

theorem decimalDigits_all_digit (n : Nat) :
    ∀ c ∈ decimalDigits n, c.isDigit = true := by
  induction n using Nat.strong_induction_on with
  | _ n ih =>
    by_cases h : n < 10
    · rw [decimalDigits_eq_of_lt n h]
      intro c hc
      simp only [List.mem_singleton] at hc
      subst hc
      exact digitChar_isDigit n h
    · rw [decimalDigits_eq_append n (by omega)]
      intro c hc
      rcases List.mem_append.mp hc with hc | hc
      · exact ih (n / 10) (Nat.div_lt_self (by omega) (by norm_num)) c hc
      · simp only [List.mem_singleton] at hc
        subst hc
        exact digitChar_isDigit _ (Nat.mod_lt _ (by norm_num))

theorem digitsToNat_append_one (ds : List Char) (c : Char) :
    digitsToNat (ds ++ [c]) = 10 * digitsToNat ds + dv c := by
  simp [digitsToNat, List.foldl_append]

theorem digitsToNat_decimalDigits (n : Nat) :
    digitsToNat (decimalDigits n) = n := by
  induction n using Nat.strong_induction_on with
  | _ n ih =>
    by_cases h : n < 10
    · rw [decimalDigits_eq_of_lt n h]
      simp [digitsToNat, dv_digitChar n h]
    · rw [decimalDigits_eq_append n (by omega), digitsToNat_append_one,
        ih (n / 10) (Nat.div_lt_self (by omega) (by norm_num)),
        dv_digitChar _ (Nat.mod_lt _ (by norm_num))]
      omega

theorem decimalDigits_ne_nil (n : Nat) : decimalDigits n ≠ [] := by
  by_cases h : n < 10
  · rw [decimalDigits_eq_of_lt n h]; simp
  · rw [decimalDigits_eq_append n (by omega)]; simp

theorem decimalDigits_length_le (h : Nat) (hh : h < 100) :
    (decimalDigits h).length ≤ 2 := by
  by_cases h1 : h < 10
  · rw [decimalDigits_eq_of_lt h h1]; simp
  · rw [decimalDigits_eq_append h (by omega),
      decimalDigits_eq_of_lt (h / 10) (by omega)]
    simp

/-! ### Digit-run extraction lemmas -/

theorem takeWhile_digits_append (cs : List Char) (b : Char) (tail : List Char)
    (h : ∀ c ∈ cs, c.isDigit = true) (hb : b.isDigit = false) :
    (cs ++ b :: tail).takeWhile Char.isDigit = cs := by
  induction cs with
  | nil => simp [List.takeWhile_cons, hb]
  | cons a as ih =>
    simp [List.cons_append, List.takeWhile_cons, h a (by simp),
      ih (fun c hc => h c (by simp [hc]))]

theorem firstDigitRun_append (cs : List Char) (b : Char) (tail : List Char)
    (hne : cs ≠ []) (h : ∀ c ∈ cs, c.isDigit = true) (hb : b.isDigit = false) :
    firstDigitRun (cs ++ b :: tail) = some cs := by
  cases cs with
  | nil => exact absurd rfl hne
  | cons a as =>
    simp only [List.cons_append, firstDigitRun, List.append_eq]
    rw [if_pos (h a (by simp))]
    rw [takeWhile_digits_append as b tail (fun c hc => h c (by simp [hc])) hb]

theorem firstDigitRun_none (l : List Char) (h : ∀ c ∈ l, c.isDigit = false) :
    firstDigitRun l = Option.none := by
  induction l with
  | nil => rfl
  | cons a as ih =>
    simp only [firstDigitRun]
    rw [if_neg (by simp [h a (by simp)])]
    exact ih (fun c hc => h c (by simp [hc]))

/-! ### String-to-list normal forms -/

theorem toList_append (a b : String) :
    (a ++ b).toList = a.toList ++ b.toList := by
  cases a
  cases b
  rfl

theorem decStr_toList (n : Nat) : (decStr n).toList = decimalDigits n := rfl

theorem twoDigit_toList (m : Nat) : (twoDigit m).toList = mmChars m := rfl

theorem jsIncludes_decStr_pos (n : Nat) (t pat : String)
    (h : t.toList = ' ' :: pat.toList) :
    jsIncludes (decStr n ++ t) pat = true := by
  rw [jsIncludes, toList_append, decStr_toList, h]
  exact occursIn_append_right _ _ _ (occursIn_cons_self _ _)

theorem jsIncludes_decStr_neg (n : Nat) (t pat : String) (c : Char)
    (hc : c ∈ pat.toList) (hcd : c.isDigit = false) (ht : c ∉ t.toList) :
    jsIncludes (decStr n ++ t) pat = false := by
  rw [jsIncludes, toList_append, decStr_toList]
  apply occursIn_eq_false _ _ c hc
  intro hmem
  rcases List.mem_append.mp hmem with h | h
  · exact absurd (decimalDigits_all_digit n c h) (by simp [hcd])
  · exact ht h

theorem matchIntOrZero_decStr (n : Nat) (t : String) (b : Char)
    (tail : List Char) (ht : t.toList = b :: tail) (hb : b.isDigit = false) :
    matchIntOrZero (decStr n ++ t) = n := by
  simp only [matchIntOrZero, toList_append, decStr_toList, ht]
  rw [firstDigitRun_append _ b tail (decimalDigits_ne_nil n)
    (decimalDigits_all_digit n) hb]
  exact digitsToNat_decimalDigits n

/-! ### Claim about relative-duration parsing (C6) -/

/-- Claim C6: for every relative-duration input `"N seconds"`,
`"N minutes"`, `"N hours"` (singular or plural) and fixed current time
`now`, parsing returns `now` plus `N` in that unit; for an input naming a
unit but containing no digits, the duration defaults to 0 and parsing
returns `now`. -/
theorem parseReminderTime_relative :
    ∀ (n now : Nat),
      parseReminderTime (decStr n ++ " minutes") now = some (now + 60 * n)
      ∧ parseReminderTime (decStr n ++ " minute") now = some (now + 60 * n)
      ∧ parseReminderTime (decStr n ++ " hours") now = some (now + 3600 * n)
      ∧ parseReminderTime (decStr n ++ " hour") now = some (now + 3600 * n)
      ∧ parseReminderTime (decStr n ++ " seconds") now = some (now + n)
      ∧ parseReminderTime (decStr n ++ " second") now = some (now + n)
      ∧ (∀ s : String,
          (jsIncludes s "minute" || jsIncludes s "hour"
            || jsIncludes s "second") = true →
          (∀ c ∈ s.toList, c.isDigit = false) →
          parseReminderTime s now = some now) := by
  intro n now
  refine ⟨?_, ?_, ?_, ?_, ?_, ?_, ?_⟩
  · have hc : (jsIncludes (decStr n ++ " minutes") "minutes"
        || jsIncludes (decStr n ++ " minutes") "minute") = true := by
      rw [jsIncludes_decStr_pos n " minutes" "minutes" (by decide)]
      rfl
    simp only [parseReminderTime]
    rw [if_pos hc, matchIntOrZero_decStr n " minutes" ' ' "minutes".toList
      (by decide) (by decide)]
  · have hc : (jsIncludes (decStr n ++ " minute") "minutes"
        || jsIncludes (decStr n ++ " minute") "minute") = true := by
      rw [jsIncludes_decStr_pos n " minute" "minute" (by decide),
        Bool.or_true]
    simp only [parseReminderTime]
    rw [if_pos hc, matchIntOrZero_decStr n " minute" ' ' "minute".toList
      (by decide) (by decide)]
  · have hc1 : (jsIncludes (decStr n ++ " hours") "minutes"
        || jsIncludes (decStr n ++ " hours") "minute") = false := by
      rw [jsIncludes_decStr_neg n " hours" "minutes" 'm' (by decide)
          (by decide) (by decide),
        jsIncludes_decStr_neg n " hours" "minute" 'm' (by decide)
          (by decide) (by decide)]
      rfl
    have hc2 : (jsIncludes (decStr n ++ " hours") "hours"
        || jsIncludes (decStr n ++ " hours") "hour") = true := by
      rw [jsIncludes_decStr_pos n " hours" "hours" (by decide)]
      rfl
    simp only [parseReminderTime]
    rw [if_neg (by simp [hc1]), if_pos hc2,
      matchIntOrZero_decStr n " hours" ' ' "hours".toList (by decide)
        (by decide)]
  · have hc1 : (jsIncludes (decStr n ++ " hour") "minutes"
        || jsIncludes (decStr n ++ " hour") "minute") = false := by
      rw [jsIncludes_decStr_neg n " hour" "minutes" 'm' (by decide)
          (by decide) (by decide),
        jsIncludes_decStr_neg n " hour" "minute" 'm' (by decide)
          (by decide) (by decide)]
      rfl
    have hc2 : (jsIncludes (decStr n ++ " hour") "hours"
        || jsIncludes (decStr n ++ " hour") "hour") = true := by
      rw [jsIncludes_decStr_pos n " hour" "hour" (by decide), Bool.or_true]
    simp only [parseReminderTime]
    rw [if_neg (by simp [hc1]), if_pos hc2,
      matchIntOrZero_decStr n " hour" ' ' "hour".toList (by decide)
        (by decide)]
  · have hc1 : (jsIncludes (decStr n ++ " seconds") "minutes"
        || jsIncludes (decStr n ++ " seconds") "minute") = false := by
      rw [jsIncludes_decStr_neg n " seconds" "minutes" 'm' (by decide)
          (by decide) (by decide),
        jsIncludes_decStr_neg n " seconds" "minute" 'm' (by decide)
          (by decide) (by decide)]
      rfl
    have hc2 : (jsIncludes (decStr n ++ " seconds") "hours"
        || jsIncludes (decStr n ++ " seconds") "hour") = false := by
      rw [jsIncludes_decStr_neg n " seconds" "hours" 'h' (by decide)
          (by decide) (by decide),
        jsIncludes_decStr_neg n " seconds" "hour" 'h' (by decide)
          (by decide) (by decide)]
      rfl
    have hc3 : (jsIncludes (decStr n ++ " seconds") "seconds"
        || jsIncludes (decStr n ++ " seconds") "second") = true := by
      rw [jsIncludes_decStr_pos n " seconds" "seconds" (by decide)]
      rfl
    simp only [parseReminderTime]
    rw [if_neg (by simp [hc1]), if_neg (by simp [hc2]), if_pos hc3,
      matchIntOrZero_decStr n " seconds" ' ' "seconds".toList (by decide)
        (by decide)]
  · have hc1 : (jsIncludes (decStr n ++ " second") "minutes"
        || jsIncludes (decStr n ++ " second") "minute") = false := by
      rw [jsIncludes_decStr_neg n " second" "minutes" 'm' (by decide)
          (by decide) (by decide),
        jsIncludes_decStr_neg n " second" "minute" 'm' (by decide)
          (by decide) (by decide)]
      rfl
    have hc2 : (jsIncludes (decStr n ++ " second") "hours"
        || jsIncludes (decStr n ++ " second") "hour") = false := by
      rw [jsIncludes_decStr_neg n " second" "hours" 'h' (by decide)
          (by decide) (by decide),
        jsIncludes_decStr_neg n " second" "hour" 'h' (by decide)
          (by decide) (by decide)]
      rfl
    have hc3 : (jsIncludes (decStr n ++ " second") "seconds"
        || jsIncludes (decStr n ++ " second") "second") = true := by
      rw [jsIncludes_decStr_pos n " second" "second" (by decide),
        Bool.or_true]
    simp only [parseReminderTime]
    rw [if_neg (by simp [hc1]), if_neg (by simp [hc2]), if_pos hc3,
      matchIntOrZero_decStr n " second" ' ' "second".toList (by decide)
        (by decide)]
  · intro s hunit hnod
    have h0 : matchIntOrZero s = 0 := by
      simp only [matchIntOrZero, firstDigitRun_none s.toList hnod]
    simp only [parseReminderTime]
    by_cases h1 : (jsIncludes s "minutes" || jsIncludes s "minute") = true
    · rw [if_pos h1, h0, Nat.mul_zero, Nat.add_zero]
    · rw [if_neg h1]
      by_cases h2 : (jsIncludes s "hours" || jsIncludes s "hour") = true
      · rw [if_pos h2, h0, Nat.mul_zero, Nat.add_zero]
      · rw [if_neg h2]
        have h3 : (jsIncludes s "seconds" || jsIncludes s "second") = true := by
          simp only [Bool.or_eq_true] at hunit h1 h2 ⊢
          rcases hunit with (hm | hh) | hs
          · exact absurd (Or.inr hm) h1
          · exact absurd (Or.inr hh) h2
          · exact Or.inr hs
        rw [if_pos h3, h0, Nat.add_zero]

/-- Witness for C6: the numeral builder reproduces the literal input
`"5 minutes"`, and parsing it adds five minutes to the clock. -/
theorem parseReminderTime_relative_witness :
    parseReminderTime (decStr 5 ++ " minutes") 0 = some (0 + 60 * 5)
    ∧ decStr 5 ++ " minutes" = "5 minutes" :=
  ⟨(parseReminderTime_relative 5 0).1, by decide⟩

/-! ### ISO-parse and clock-pattern lemmas -/

theorem isoCore_none_of_length (l : List Char) (h : l.length ≠ 19) :
    isoCore l = Option.none := by
  unfold isoCore
  split
  · simp_all
  · rfl

theorem jsDateParse_none_of_short (s : String) (h : s.toList.length < 19) :
    jsDateParse s = Option.none := by
  unfold jsDateParse
  split
  · exact isoCore_none_of_length _ (by rw [List.length_dropLast]; omega)
  · exact isoCore_none_of_length _ (by omega)

theorem mmChars_all_digit (m : Nat) (hm : m < 100) :
    ∀ c ∈ mmChars m, c.isDigit = true := by
  intro c hc
  rcases List.mem_cons.mp hc with rfl | hc2
  · exact digitChar_isDigit _ (by omega)
  · rcases List.mem_cons.mp hc2 with rfl | hc3
    · exact digitChar_isDigit _ (Nat.mod_lt _ (by norm_num))
    · simp at hc3

theorem not_mem_clockList (c : Char) (hcd : c.isDigit = false)
    (hcol : c ≠ ':') (h m : Nat) (hm : m < 100) (suffix : List Char)
    (hs : c ∉ suffix) :
    c ∉ decimalDigits h ++ (':' :: (mmChars m ++ suffix)) := by
  intro hmem
  rcases List.mem_append.mp hmem with hd | hmem2
  · exact absurd (decimalDigits_all_digit h c hd) (by simp [hcd])
  · rcases List.mem_cons.mp hmem2 with rfl | hmem3
    · exact hcol rfl
    · rcases List.mem_append.mp hmem3 with hd | hsf
      · exact absurd (mmChars_all_digit m hm c hd) (by simp [hcd])
      · exact hs hsf

theorem findClock_clockList (h m : Nat) (hh : h < 100) (hm : m < 60)
    (suffix : List Char) :
    findClock (decimalDigits h ++ (':' :: (mmChars m ++ suffix)))
      = some ⟨h, m, parseAmPm (suffix.dropWhile Char.isWhitespace)⟩ := by
  have hcoldig : (':' : Char).isDigit = false := by decide
  have hd1 : (Nat.digitChar (m / 10)).isDigit = true :=
    digitChar_isDigit _ (by omega)
  have hd2 : (Nat.digitChar (m % 10)).isDigit = true :=
    digitChar_isDigit _ (Nat.mod_lt _ (by norm_num))
  have hv1 : dv (Nat.digitChar (m / 10)) = m / 10 := dv_digitChar _ (by omega)
  have hv2 : dv (Nat.digitChar (m % 10)) = m % 10 :=
    dv_digitChar _ (Nat.mod_lt _ (by norm_num))
  by_cases h1 : h < 10
  · rw [decimalDigits_eq_of_lt h h1]
    have hdh : (Nat.digitChar h).isDigit = true := digitChar_isDigit h h1
    have hvh : dv (Nat.digitChar h) = h := dv_digitChar h h1
    simp only [mmChars, List.cons_append, List.nil_append,
      List.singleton_append]
    simp [findClock, matchClockAt, matchClockTail, hdh, hd1, hd2, hcoldig,
      hv1, hv2, hvh]
    omega
  · rw [decimalDigits_eq_append h (by omega),
      decimalDigits_eq_of_lt (h / 10) (by omega)]
    have hdh1 : (Nat.digitChar (h / 10)).isDigit = true :=
      digitChar_isDigit _ (by omega)
    have hdh2 : (Nat.digitChar (h % 10)).isDigit = true :=
      digitChar_isDigit _ (Nat.mod_lt _ (by norm_num))
    have hvh1 : dv (Nat.digitChar (h / 10)) = h / 10 :=
      dv_digitChar _ (by omega)
    have hvh2 : dv (Nat.digitChar (h % 10)) = h % 10 :=
      dv_digitChar _ (Nat.mod_lt _ (by norm_num))
    simp only [mmChars, List.cons_append, List.nil_append,
      List.singleton_append]
    simp [findClock, matchClockAt, matchClockTail, hdh1, hdh2, hd1, hd2,
      hcoldig, hv1, hv2, hvh1, hvh2]
    omega

theorem parseReminderTime_clockAux (now h m : Nat) (hh : h < 100)
    (hm : m < 60) (s : String) (suffix : List Char) (am : Option Bool)
    (hlist : s.toList = decimalDigits h ++ (':' :: (mmChars m ++ suffix)))
    (ham : parseAmPm (suffix.dropWhile Char.isWhitespace) = am)
    (hsu : 'u' ∉ suffix) (hsc : 'c' ∉ suffix) (hsuflen : suffix.length ≤ 3) :
    parseReminderTime s now
      = some (rollForward now
          (if am = some true ∧ h ≠ 12 then h + 12
           else if am = some false ∧ h = 12 then 0 else h) m) := by
  have hneg : ∀ pat : String, ∀ c : Char, c ∈ pat.toList →
      c.isDigit = false → c ≠ ':' → c ∉ suffix →
      jsIncludes s pat = false := by
    intro pat c hc hcd hcol hcs
    rw [jsIncludes, hlist]
    exact occursIn_eq_false _ _ c hc
      (not_mem_clockList c hcd hcol h m (by omega) suffix hcs)
  have h1 : (jsIncludes s "minutes" || jsIncludes s "minute") = false := by
    rw [hneg "minutes" 'u' (by decide) (by decide) (by decide) hsu,
      hneg "minute" 'u' (by decide) (by decide) (by decide) hsu]
    rfl
  have h2 : (jsIncludes s "hours" || jsIncludes s "hour") = false := by
    rw [hneg "hours" 'u' (by decide) (by decide) (by decide) hsu,
      hneg "hour" 'u' (by decide) (by decide) (by decide) hsu]
    rfl
  have h3 : (jsIncludes s "seconds" || jsIncludes s "second") = false := by
    rw [hneg "seconds" 'c' (by decide) (by decide) (by decide) hsc,
      hneg "second" 'c' (by decide) (by decide) (by decide) hsc]
    rfl
  have hjs : jsDateParse s = Option.none := by
    apply jsDateParse_none_of_short
    rw [hlist]
    have := decimalDigits_length_le h hh
    simp only [List.length_append, List.length_cons, mmChars]
    simp
    omega
  simp only [parseReminderTime]
  rw [if_neg (by simp [h1]), if_neg (by simp [h2]), if_neg (by simp [h3])]
  simp only [hjs, hlist, findClock_clockList h m hh hm suffix, ham]
  cases am with
  | none => simp [rollForward]
  | some b =>
    cases b with
    | true => by_cases h12 : h = 12 <;> simp [h12, rollForward]
    | false => by_cases h12 : h = 12 <;> simp [h12, rollForward]

/-! ### Claim about clock-time parsing (C7) -/

/-- Claim C7: for every clock-time input `H:MM` (hour below 24) or
`H:MM AM` / `H:MM PM` (hour 1 to 12), parsing returns today at that clock
time — 12 AM converting to hour 0 and 12 PM staying hour 12 — rolled
forward to the same clock time tomorrow when the instant is not strictly
after `now`; in particular `"2:30 PM"` parsed when now is 3:00 PM yields
tomorrow at 14:30. -/
theorem parseReminderTime_clock :
    ∀ (now h m : Nat), m < 60 →
      (h < 24 →
        parseReminderTime (decStr h ++ ":" ++ twoDigit m) now
          = some (rollForward now h m))
      ∧ (1 ≤ h → h ≤ 12 →
          parseReminderTime (decStr h ++ ":" ++ twoDigit m ++ " AM") now
            = some (rollForward now (if h = 12 then 0 else h) m))
      ∧ (1 ≤ h → h ≤ 12 →
          parseReminderTime (decStr h ++ ":" ++ twoDigit m ++ " PM") now
            = some (rollForward now (if h = 12 then 12 else h + 12) m))
      ∧ parseReminderTime "2:30 PM" (86400 * 100 + 15 * 3600)
          = some (86400 * 101 + 14 * 3600 + 30 * 60) := by
  intro now h m hm
  have hcolon : ((":" : String)).toList = [':'] := rfl
  refine ⟨?_, ?_, ?_, ?_⟩
  · intro hh24
    have hlist : (decStr h ++ ":" ++ twoDigit m).toList
        = decimalDigits h ++ (':' :: (mmChars m ++ [])) := by
      rw [toList_append, toList_append, decStr_toList, twoDigit_toList,
        hcolon]
      simp
    rw [parseReminderTime_clockAux now h m (by omega) hm _ [] Option.none
      hlist rfl (by simp) (by simp) (by simp)]
    simp
  · intro hge hle
    have hlist : (decStr h ++ ":" ++ twoDigit m ++ " AM").toList
        = decimalDigits h ++ (':' :: (mmChars m ++ [' ', 'A', 'M'])) := by
      rw [toList_append, toList_append, toList_append, decStr_toList,
        twoDigit_toList, hcolon]
      simp [show ((" AM" : String)).toList = [' ', 'A', 'M'] from rfl]
    rw [parseReminderTime_clockAux now h m (by omega) hm _ [' ', 'A', 'M']
      (some false) hlist (by decide) (by decide) (by decide) (by decide)]
    by_cases h12 : h = 12 <;> simp [h12]
  · intro hge hle
    have hlist : (decStr h ++ ":" ++ twoDigit m ++ " PM").toList
        = decimalDigits h ++ (':' :: (mmChars m ++ [' ', 'P', 'M'])) := by
      rw [toList_append, toList_append, toList_append, decStr_toList,
        twoDigit_toList, hcolon]
      simp [show ((" PM" : String)).toList = [' ', 'P', 'M'] from rfl]
    rw [parseReminderTime_clockAux now h m (by omega) hm _ [' ', 'P', 'M']
      (some true) hlist (by decide) (by decide) (by decide) (by decide)]
    by_cases h12 : h = 12 <;> simp [h12]
  · decide

/-- Witness for C7: the builders reproduce the literal input `"14:30"`,
and parsing it at midnight gives today at 14:30. -/
theorem parseReminderTime_clock_witness :
    parseReminderTime (decStr 14 ++ ":" ++ twoDigit 30) 0
        = some (rollForward 0 14 30)
    ∧ decStr 14 ++ ":" ++ twoDigit 30 = "14:30"
    ∧ rollForward 0 14 30 = 52200 :=
  ⟨(parseReminderTime_clock 0 14 30 (by norm_num)).1 (by norm_num),
   by decide, by decide⟩

end JayaFE
